import Mathlib

/-!
# Verification of the Dev-Janitor trust-boundary validation layer

Shallow embedding of the security validators of the Dev-Janitor repository:

* `CommandValidator` (`src/main/security/commandValidator.ts`):
  allow-list checking, dangerous-character detection and argument escaping
  for shell commands.
* `InputValidator` (`src/main/security/inputValidator.ts`):
  package-name, PID, path and package-manager validation.
* `CSPManager` (`src/main/security/cspManager.ts`): content-security-policy
  header construction.  The implementation file is absent from the
  repository snapshot (only its unit tests and the design document are
  present), so the header builder is modelled from the specification and
  the design document's policy table.

Strings are embedded as `List Char`.  JavaScript regular expressions are
translated to executable character predicates and matchers; each
translation is documented next to its definition.  JavaScript numbers, as
far as `validatePID` inspects them, are modelled as `NaN`, the two
infinities, or a finite rational.
-/

namespace DevJanitor

/-! ## Shared string machinery

JavaScript `String.prototype.trim` and `split(/\s+/)` are modelled over
`List Char`.  Whitespace is modelled as the four common ASCII whitespace
characters (space, tab, line feed, carriage return), the fragment of the
JS `\s` class exercised by this code base. -/

/-- Whitespace predicate modelling the JS `\s` character class
(ASCII fragment). -/
def isWS (c : Char) : Bool :=
  c = ' ' || c = '\t' || c = '\n' || c = '\r'

/-- Model of JS `l.trim()` as `trim l`: removes leading and trailing
whitespace. -/
def trim (l : List Char) : List Char :=
  ((l.dropWhile isWS).reverse.dropWhile isWS).reverse

/-- Model of JS `l.split(/\s+/)` on an already-trimmed string:
the list of maximal runs of non-whitespace characters of `l`, in order.
(On a trimmed string, `split(/\s+/)` produces exactly these runs: each
run of whitespace is a single separator and there are no leading or
trailing separators.) -/
def tokens : List Char → List (List Char)
  | [] => []
  | [c] => if isWS c then [] else [[c]]
  | c :: d :: rest =>
    if isWS c then tokens (d :: rest)
    else if isWS d then [c] :: tokens (d :: rest)
    else
      match tokens (d :: rest) with
      | [] => [[c]]
      | t :: ts => (c :: t) :: ts

/-- Model of JS `ts.join(' ')`. -/
def joinSpace : List (List Char) → List Char
  | [] => []
  | [t] => t
  | t :: ts => t ++ ' ' :: joinSpace ts

/-! ## CommandValidator (`commandValidator.ts`) -/

/-- The character class of `DANGEROUS_PATTERNS` (`commandValidator.ts`
line 74), the regex class holding `;`, `&`, `|`, backquote, `$`, `(`,
`)`, `{`, `}`, `[`, `]`, `<`, `>`, backslash, single quote and double
quote: sixteen shell metacharacters, backslash included. -/
def isDangerous (c : Char) : Bool :=
  c = ';' || c = '&' || c = '|' || c = '`' || c = '$' || c = '(' || c = ')' ||
  c = '{' || c = '}' || c = '[' || c = ']' || c = '<' || c = '>' ||
  c = '\\' || c = '\'' || c = '"'

/-- Model of `CommandValidator.containsDangerousChars`: true iff some character of
the input is in the dangerous set (`DANGEROUS_PATTERNS.test`).  The JS
falsy-input guard returns `false` for the empty string, as `List.any`
does on `[]`. -/
def containsDangerousChars (input : List Char) : Bool :=
  input.any isDangerous

/-- The `dangerousChars` array local to `CommandValidator.escapeArgument`:
the fifteen dangerous characters excluding the backslash (the backslash
is handled separately as the escaping character). -/
def escDangerous (c : Char) : Bool :=
  c = ';' || c = '&' || c = '|' || c = '`' || c = '$' || c = '(' || c = ')' ||
  c = '{' || c = '}' || c = '[' || c = ']' || c = '<' || c = '>' ||
  c = '\'' || c = '"'

/-- Model of `CommandValidator.escapeArgument`: left-to-right index scan with one
character of lookahead, mirroring the `while` loop:
* a backslash followed by a dangerous character: copy the pair unchanged
  (already escaped; advance two);
* a backslash followed by a backslash: emit a double backslash (advance
  two);
* a bare backslash otherwise (also at end of input): emit a double
  backslash and advance one, so the following character is processed
  again;
* a dangerous character: emit a backslash then the character;
* anything else: copy.
The JS falsy guard maps the empty string to the empty string, as the
first equation does. -/
def escapeArgument : List Char → List Char
  | [] => []
  | c :: rest =>
    if c = '\\' then
      match rest with
      | [] => ['\\', '\\']
      | d :: rest2 =>
        if escDangerous d then '\\' :: d :: escapeArgument rest2
        else if d = '\\' then '\\' :: '\\' :: escapeArgument rest2
        else '\\' :: '\\' :: escapeArgument (d :: rest2)
    else if escDangerous c then '\\' :: c :: escapeArgument rest
    else c :: escapeArgument rest

/-- Model of `ALLOWED_COMMANDS` (`commandValidator.ts` lines 57-68). -/
def allowedCommands : List (List Char) :=
  [['n','p','m'], ['n','p','x'], ['p','i','p'], ['p','i','p','3'],
   ['c','o','m','p','o','s','e','r'], ['c','a','r','g','o'],
   ['g','e','m'], ['n','o','d','e'],
   ['p','y','t','h','o','n'], ['p','y','t','h','o','n','3']]

/-- The three distinct error messages of `validateCommand`;
`notAllowed` carries the rejected base command, as the JS message
interpolates it. -/
inductive CmdError where
  | emptyCommand : CmdError
  | notAllowed : List Char → CmdError
  | unsafeChars : CmdError
deriving DecidableEq, Repr

/-- Model of `CommandValidationResult`: `valid : true` comes with
`sanitizedCommand` and `valid : false` with `error`, which this inductive
captures exactly (never partially populated). -/
inductive CmdResult where
  | invalid : CmdError → CmdResult
  | valid : List Char → CmdResult
deriving DecidableEq, Repr

/-- Model of `CommandValidator.validateCommand`: empty gate, allow-list gate on the
first whitespace-separated token, command-wide dangerous-character gate,
then escaping of the argument tokens and re-join with single spaces.
The JS falsy check `!command` and the `trimmedCommand.length === 0` check
collapse into the single `trim command = []` test (both return the same
empty-command error). -/
def validateCommand (command : List Char) : CmdResult :=
  let trimmedCommand := trim command
  if trimmedCommand = [] then .invalid .emptyCommand
  else
    let parts := tokens trimmedCommand
    let baseCommand := parts.headD []
    if baseCommand ∈ allowedCommands then
      if containsDangerousChars trimmedCommand then .invalid .unsafeChars
      else .valid (joinSpace (baseCommand :: parts.tail.map escapeArgument))
    else .invalid (.notAllowed baseCommand)

/-- The first whitespace-separated token of a command, `parts[0]` in
`validateCommand` (defaulting to the empty token for an all-whitespace
input, which never occurs on the accepting paths). -/
def firstToken (command : List Char) : List Char :=
  (tokens (trim command)).headD []

/-- One round of un-escaping used to state P3: every leading-backslash
escape sequence (the backslash together with the character it escapes) is
removed once; what remains are exactly the characters that occur
unescaped.  A trailing lone backslash is kept (it escapes nothing). -/
def stripEscapes : List Char → List Char
  | [] => []
  | c :: rest =>
    if c = '\\' then
      match rest with
      | [] => ['\\']
      | _ :: rest2 => stripEscapes rest2
    else c :: stripEscapes rest

/-! ## InputValidator (`inputValidator.ts`) -/

/-- The distinct error messages of the four `InputValidator` validators,
one constructor per message. -/
inductive ValError where
  | emptyName : ValError
  | badPackageFormat : ValError
  | pidNotNumeric : ValError
  | pidNaN : ValError
  | pidNotFinite : ValError
  | pidNotInteger : ValError
  | pidNotPositive : ValError
  | emptyPath : ValError
  | pathTraversal : ValError
  | emptyManager : ValError
  | badManager : ValError
deriving DecidableEq, Repr

/-- Model of `ValidationResult<T>`: `valid : true` with `value` or `valid : false`
with `error`. -/
inductive VResult (α : Type) where
  | invalid : ValError → VResult α
  | valid : α → VResult α
deriving DecidableEq, Repr

/-- Class `[a-z]`. -/
def isLowerAZ (c : Char) : Bool := 'a' ≤ c && c ≤ 'z'

/-- Class `[A-Z]`. -/
def isUpperAZ (c : Char) : Bool := 'A' ≤ c && c ≤ 'Z'

/-- Class `[0-9]`. -/
def isDigit09 (c : Char) : Bool := '0' ≤ c && c ≤ '9'

/-- The class `[a-z0-9-~]` of `NPM_PACKAGE_PATTERN` (the two dashes in
the class source are literal). -/
def npmLead (c : Char) : Bool :=
  isLowerAZ c || isDigit09 c || c = '-' || c = '~'

/-- The class `[a-z0-9-._~]` of `NPM_PACKAGE_PATTERN`. -/
def npmBody (c : Char) : Bool :=
  npmLead c || c = '.' || c = '_'

/-- Matcher for the sub-pattern `[a-z0-9-~][a-z0-9-._~]*`: nonempty,
lead character from the lead class, remaining characters from the body
class. -/
def npmSimple : List Char → Bool
  | [] => false
  | c :: rest => npmLead c && rest.all npmBody

/-- Model of `NPM_PACKAGE_PATTERN` (`inputValidator.ts` lines 104-105),
the anchored regex with an optional scope group:
an at sign, a scope segment, a slash, then a name segment — or just a
name segment.  Neither segment class contains `/` or `@`, so an optional
scope match must consume exactly the text up to the first slash; this
matcher splits there. -/
def npmMatch (l : List Char) : Bool :=
  npmSimple l ||
  (match l with
   | '@' :: rest =>
     (match rest.dropWhile (fun c => !(c = '/')) with
      | '/' :: name =>
        npmSimple (rest.takeWhile (fun c => !(c = '/'))) && npmSimple name
      | _ => false)
   | _ => false)

/-- The classes `[a-zA-Z0-9]` (edge) of `PIP_PACKAGE_PATTERN`. -/
def pipEdge (c : Char) : Bool :=
  isLowerAZ c || isUpperAZ c || isDigit09 c

/-- The class `[a-zA-Z0-9._-]` (middle) of `PIP_PACKAGE_PATTERN`. -/
def pipMid (c : Char) : Bool :=
  pipEdge c || c = '.' || c = '_' || c = '-'

/-- Model of `PIP_PACKAGE_PATTERN` (`inputValidator.ts` lines 110-111), the
anchored regex requiring an alphanumeric first character and, when the
string is longer than one character, middle characters from the middle
class and an alphanumeric last character. -/
def pipMatch : List Char → Bool
  | [] => false
  | c :: rest =>
    pipEdge c &&
    (match rest.reverse with
     | [] => true
     | d :: mid => pipEdge d && mid.all pipMid)

/-- Model of `InputValidator.validatePackageName`: empty gate on the trimmed
value, then the npm pattern, then the pip pattern; the accepted value is
the trimmed name, unchanged. -/
def validatePackageName (name : List Char) : VResult (List Char) :=
  let trimmedName := trim name
  if trimmedName = [] then .invalid .emptyName
  else if npmMatch trimmedName then .valid trimmedName
  else if pipMatch trimmedName then .valid trimmedName
  else .invalid .badPackageFormat

/-- A JavaScript number as far as `validatePID` inspects it: `NaN`,
positive or negative infinity, or a finite value.  Finite doubles are a
subset of the rationals, and none of the predicates used by
`validatePID` distinguishes inside that subset, so finite values are
carried as `ℚ`. -/
inductive JSNumber where
  | nan : JSNumber
  | posInf : JSNumber
  | negInf : JSNumber
  | finite : ℚ → JSNumber
deriving DecidableEq, Repr

/-- A JavaScript value crossing the IPC boundary into `validatePID`
(whose parameter is `unknown`): a number, or any non-number value
(string, boolean, null, undefined, object), which `typeof` separates. -/
inductive JSVal where
  | num : JSNumber → JSVal
  | str : List Char → JSVal
  | boolean : Bool → JSVal
  | nullV : JSVal
  | undefinedV : JSVal
  | objectV : JSVal
deriving DecidableEq, Repr

/-- Model of `Number.isNaN`. -/
def jsIsNaN : JSNumber → Bool
  | .nan => true
  | _ => false

/-- Model of `Number.isFinite`. -/
def jsIsFinite : JSNumber → Bool
  | .finite _ => true
  | _ => false

/-- Model of `Number.isInteger`. -/
def jsIsInteger : JSNumber → Bool
  | .finite q => q.den = 1
  | _ => false

/-- The JS comparison `pid <= 0` (false on `NaN`). -/
def jsLeZero : JSNumber → Bool
  | .nan => false
  | .posInf => false
  | .negInf => true
  | .finite q => q ≤ 0

/-- Model of `InputValidator.validatePID`: the `typeof` gate, then `Number.isNaN`,
`Number.isFinite`, `Number.isInteger`, then positivity, in the source's
order; the accepted value is the input number itself. -/
def validatePID (pid : JSVal) : VResult JSNumber :=
  match pid with
  | .num x =>
    if jsIsNaN x then .invalid .pidNaN
    else if !(jsIsFinite x) then .invalid .pidNotFinite
    else if !(jsIsInteger x) then .invalid .pidNotInteger
    else if jsLeZero x then .invalid .pidNotPositive
    else .valid x
  | _ => .invalid .pidNotNumeric

/-- Model of `PATH_TRAVERSAL_PATTERN` (`inputValidator.ts` line 116), the regex
testing for the two-character substring of two dots anywhere. -/
def containsDotDot : List Char → Bool
  | [] => false
  | c :: rest =>
    match c, rest with
    | '.', '.' :: _ => true
    | _, _ => containsDotDot rest

/-- Model of `InputValidator.validatePath`: empty gate on the trimmed value, then
the traversal-pattern gate on the trimmed value; the accepted value is
the trimmed path, unchanged (no normalization). -/
def validatePath (path : List Char) : VResult (List Char) :=
  let trimmedPath := trim path
  if trimmedPath = [] then .invalid .emptyPath
  else if containsDotDot trimmedPath then .invalid .pathTraversal
  else .valid trimmedPath

/-! ## CSPManager (`cspManager.ts`, modelled)

The implementation file is not in the repository snapshot; only its unit
tests (`cspManager.test.ts`) and the design document's `CSP_POLICY`
table are.  The builder below is therefore modelled from the
specification (§4.3) and that table. -/

/-- Model of `CSPConfig`: per-request parameters of the header builder. -/
structure CSPConfig where
  isDevelopment : Bool
  devServerUrl : Option (List Char)
  nonce : Option (List Char)

/-- The `CSP_POLICY` base table from the design document
(`.kiro/specs/code-health-fixes/design.md` lines 198-209): an ordered
mapping from directive name to source-expression tokens. -/
def cspPolicy : List (List Char × List (List Char)) :=
  [ ("default-src".toList, ["'self'".toList]),
    ("script-src".toList, ["'self'".toList]),
    ("style-src".toList, ["'self'".toList, "'unsafe-inline'".toList]),
    ("img-src".toList, ["'self'".toList, "data:".toList, "https:".toList]),
    ("connect-src".toList, ["'self'".toList]),
    ("font-src".toList, ["'self'".toList]),
    ("object-src".toList, ["'none'".toList]),
    ("base-uri".toList, ["'self'".toList]),
    ("form-action".toList, ["'self'".toList]),
    ("frame-ancestors".toList, ["'none'".toList]) ]

/-- Modelled from the spec: the websocket-scheme equivalent of a dev
server origin (§4.3: replace a leading `http` by `ws`, `https` by
`wss`). -/
def wsEquivalent (u : List Char) : List Char :=
  match u with
  | 'h' :: 't' :: 't' :: 'p' :: 's' :: rest => 'w' :: 's' :: 's' :: rest
  | 'h' :: 't' :: 't' :: 'p' :: rest => 'w' :: 's' :: rest
  | _ => u

/-- Modelled from the spec: the extra `connect-src` tokens (§4.3): in
development mode the two localhost wildcards and, when a dev-server URL
is supplied, that literal origin and its websocket equivalent. -/
def devConnectTokens (cfg : CSPConfig) : List (List Char) :=
  if cfg.isDevelopment then
    "http://localhost:*".toList :: "ws://localhost:*".toList ::
      (match cfg.devServerUrl with
       | some u => [u, wsEquivalent u]
       | none => [])
  else []

/-- Modelled from the spec: the nonce token appended to `script-src`
when a nonce is supplied (§4.3). -/
def nonceTokens (cfg : CSPConfig) : List (List Char) :=
  match cfg.nonce with
  | some n => ["'nonce-".toList ++ n ++ ['\'']]
  | none => []

/-- Modelled from the spec: `CSPManager.generateCSPHeader`, the
per-request policy before serialization (§4.3): the implementation file
`cspManager.ts` is absent from the snapshot.  A fresh copy of the base
table is taken per call; `script-src` gains the nonce token when a nonce
is supplied; `connect-src` gains the development tokens. -/
def generateCSPPolicy (cfg : CSPConfig) : List (List Char × List (List Char)) :=
  cspPolicy.map (fun d =>
    if d.1 = "script-src".toList then (d.1, d.2 ++ nonceTokens cfg)
    else if d.1 = "connect-src".toList then (d.1, d.2 ++ devConnectTokens cfg)
    else d)

/-- Modelled from the spec: serialization of a policy as
`directive tokens` groups joined with a semicolon and a space (§4.3). -/
def serializeCSP : List (List Char × List (List Char)) → List Char
  | [] => []
  | [d] => joinSpace (d.1 :: d.2)
  | d :: ds => joinSpace (d.1 :: d.2) ++ ';' :: ' ' :: serializeCSP ds

/-- Modelled from the spec: `CSPManager.generateCSPHeader`, the textual
header value. -/
def generateCSPHeader (cfg : CSPConfig) : List Char :=
  serializeCSP (generateCSPPolicy cfg)

/-- The `script-src` token list of a generated policy. -/
def scriptSrcTokens (cfg : CSPConfig) : List (List Char) :=
  ((generateCSPPolicy cfg).lookup "script-src".toList).getD []

/-! ## Helper lemmas -/

theorem mem_dropWhile_of_pred_false {p : Char → Bool} {l : List Char}
    {c : Char} (h : c ∈ l) (hc : p c = false) : c ∈ l.dropWhile p := by
  induction l with
  | nil => cases h
  | cons a l ih =>
    by_cases hpa : p a = true
    · rw [List.dropWhile_cons_of_pos hpa]
      rcases List.mem_cons.mp h with rfl | h'
      · rw [hpa] at hc; cases hc
      · exact ih h'
    · rw [List.dropWhile_cons_of_neg hpa]
      exact h

theorem trim_subset {l : List Char} : ∀ c ∈ trim l, c ∈ l := by
  intro c hc
  unfold trim at hc
  rw [List.mem_reverse] at hc
  have h2 := List.dropWhile_subset (l := (l.dropWhile isWS).reverse) isWS hc
  rw [List.mem_reverse] at h2
  exact List.dropWhile_subset isWS h2

theorem mem_trim_of_not_ws {c : Char} {l : List Char} (h : c ∈ l)
    (hc : isWS c = false) : c ∈ trim l := by
  unfold trim
  rw [List.mem_reverse]
  apply mem_dropWhile_of_pred_false _ hc
  rw [List.mem_reverse]
  exact mem_dropWhile_of_pred_false h hc

theorem isDangerous_not_ws {c : Char} (h : isDangerous c = true) :
    isWS c = false := by
  simp only [isDangerous, Bool.or_eq_true, decide_eq_true_eq] at h
  casesm* _ ∨ _ <;> subst_vars <;> rfl

theorem containsDangerousChars_trim {l : List Char}
    (h : containsDangerousChars l = true) :
    containsDangerousChars (trim l) = true := by
  rcases List.any_eq_true.mp h with ⟨c, hc, hdc⟩
  exact List.any_eq_true.mpr
    ⟨c, mem_trim_of_not_ws hc (isDangerous_not_ws hdc), hdc⟩

theorem isDangerous_iff (c : Char) :
    isDangerous c = true ↔ (escDangerous c = true ∨ c = '\\') := by
  simp only [isDangerous, escDangerous, Bool.or_eq_true, decide_eq_true_eq]
  tauto

theorem isDangerous_eq_false {c : Char} (h1 : escDangerous c = false)
    (h2 : c ≠ '\\') : isDangerous c = false := by
  by_contra h
  rcases (isDangerous_iff c).mp (by simpa using h) with h' | h'
  · simp [h1] at h'
  · exact h2 h'

theorem esc_bs_dang (d : Char) (rest : List Char) (h : escDangerous d = true) :
    escapeArgument ('\\' :: d :: rest) = '\\' :: d :: escapeArgument rest := by
  rw [escapeArgument]
  simp [h]

theorem esc_bs_bs (rest : List Char) :
    escapeArgument ('\\' :: '\\' :: rest) = '\\' :: '\\' :: escapeArgument rest := by
  rw [escapeArgument]
  simp [escDangerous]

theorem esc_bs_other (d : Char) (rest : List Char) (h1 : escDangerous d = false)
    (h2 : d ≠ '\\') :
    escapeArgument ('\\' :: d :: rest) = '\\' :: '\\' :: escapeArgument (d :: rest) := by
  rw [escapeArgument]
  simp [h1, h2]

theorem esc_dang (c : Char) (rest : List Char) (h2 : c ≠ '\\')
    (h : escDangerous c = true) :
    escapeArgument (c :: rest) = '\\' :: c :: escapeArgument rest := by
  rw [escapeArgument.eq_def]
  simp [h2, h]

theorem esc_safe (c : Char) (rest : List Char) (h2 : c ≠ '\\')
    (h : escDangerous c = false) :
    escapeArgument (c :: rest) = c :: escapeArgument rest := by
  rw [escapeArgument.eq_def]
  simp [h2, h]

theorem strip_bs_cons (d : Char) (t : List Char) :
    stripEscapes ('\\' :: d :: t) = stripEscapes t := by
  rw [stripEscapes.eq_def]
  simp

theorem strip_cons_ne (c : Char) (t : List Char) (h : c ≠ '\\') :
    stripEscapes (c :: t) = c :: stripEscapes t := by
  rw [stripEscapes.eq_def]
  simp [h]

theorem escapeArgument_id {l : List Char}
    (h : ∀ c ∈ l, isDangerous c = false) : escapeArgument l = l := by
  induction l with
  | nil => rfl
  | cons c rest ih =>
    have hc := h c (by simp)
    have h2 : c ≠ '\\' := by
      intro heq
      subst heq
      exact absurd hc (by decide)
    have h1 : escDangerous c = false := by
      by_contra hh
      have hd : isDangerous c = true :=
        (isDangerous_iff c).mpr (Or.inl (by simpa using hh))
      simp [hc] at hd
    rw [esc_safe c rest h2 h1, ih (fun c' hc' => h c' (by simp [hc']))]

theorem map_self_of_id {f : List Char → List Char} :
    ∀ {ts : List (List Char)}, (∀ t ∈ ts, f t = t) → ts.map f = ts := by
  intro ts
  induction ts with
  | nil => intro _; rfl
  | cons t ts ih =>
    intro h
    simp only [List.map_cons, h t (by simp),
      ih (fun t' ht' => h t' (by simp [ht']))]

theorem mem_tokens {l : List Char} :
    ∀ t ∈ tokens l, ∀ c ∈ t, c ∈ l := by
  induction l using tokens.induct with
  | case1 => intro t ht; cases ht
  | case2 c hws =>
    intro t ht
    simp [tokens, hws] at ht
  | case3 c hws =>
    intro t ht
    simp only [tokens, if_neg hws, List.mem_singleton] at ht
    subst ht
    intro c' hc'
    simpa using hc'
  | case4 c d rest hws ih =>
    intro t ht c' hc'
    rw [tokens, if_pos hws] at ht
    exact List.mem_cons_of_mem _ (ih t ht c' hc')
  | case5 c d rest hws hwd ih =>
    intro t ht c' hc'
    rw [tokens, if_neg hws, if_pos hwd] at ht
    rcases List.mem_cons.mp ht with rfl | ht'
    · rcases List.mem_singleton.mp hc' with rfl
      exact List.mem_cons_self _ _
    · exact List.mem_cons_of_mem _ (ih t ht' c' hc')
  | case6 c d rest hws hwd hnil ih =>
    intro t ht c' hc'
    rw [tokens, if_neg hws, if_neg hwd, hnil] at ht
    rcases List.mem_singleton.mp ht with rfl
    rcases List.mem_singleton.mp hc' with rfl
    exact List.mem_cons_self _ _
  | case7 c d rest hws hwd t0 ts0 hcons ih =>
    intro t ht c' hc'
    rw [tokens, if_neg hws, if_neg hwd, hcons] at ht
    rcases List.mem_cons.mp ht with rfl | ht'
    · rcases List.mem_cons.mp hc' with rfl | hc''
      · simp
      · exact List.mem_cons_of_mem _
          (ih t0 (hcons ▸ List.mem_cons_self _ _) c' hc'')
    · exact List.mem_cons_of_mem _
        (ih t (hcons ▸ List.mem_cons_of_mem _ ht') c' hc')

theorem tokens_ne_nil {l : List Char}
    (h : ∃ c ∈ l, isWS c = false) : tokens l ≠ [] := by
  induction l using tokens.induct with
  | case1 => rcases h with ⟨c, hc, _⟩; cases hc
  | case2 c hws =>
    rcases h with ⟨c', hc', hws'⟩
    rcases List.mem_singleton.mp hc' with rfl
    rw [hws] at hws'
    cases hws'
  | case3 c hws =>
    simp [tokens, hws]
  | case4 c d rest hws ih =>
    rw [tokens, if_pos hws]
    apply ih
    rcases h with ⟨c', hc', hws'⟩
    rcases List.mem_cons.mp hc' with rfl | hc''
    · rw [hws] at hws'; cases hws'
    · exact ⟨c', hc'', hws'⟩
  | case5 c d rest hws hwd ih =>
    rw [tokens, if_neg hws, if_pos hwd]
    simp
  | case6 c d rest hws hwd hnil ih =>
    rw [tokens, if_neg hws, if_neg hwd, hnil]
    simp
  | case7 c d rest hws hwd t0 ts0 hcons ih =>
    rw [tokens, if_neg hws, if_neg hwd, hcons]
    simp

theorem exists_not_ws_of_trim_ne_nil {l : List Char} (h : trim l ≠ []) :
    ∃ c ∈ trim l, isWS c = false := by
  have hBne : ((l.dropWhile isWS).reverse).dropWhile isWS ≠ [] := by
    intro hnil
    apply h
    unfold trim
    rw [hnil]
    rfl
  exact ⟨_, by unfold trim; rw [List.mem_reverse]; exact List.head_mem hBne,
    List.head_dropWhile_not isWS _ hBne⟩

theorem mem_joinSpace :
    ∀ {ts : List (List Char)} {c : Char},
      c ∈ joinSpace ts → c = ' ' ∨ ∃ t ∈ ts, c ∈ t := by
  intro ts
  induction ts with
  | nil => intro c h; cases h
  | cons t ts ih =>
    intro c h
    cases ts with
    | nil =>
      exact Or.inr ⟨t, by simp, by simpa [joinSpace] using h⟩
    | cons t2 ts2 =>
      rw [show joinSpace (t :: t2 :: ts2) = t ++ ' ' :: joinSpace (t2 :: ts2)
        from rfl] at h
      rcases List.mem_append.mp h with h' | h'
      · exact Or.inr ⟨t, by simp, h'⟩
      · rcases List.mem_cons.mp h' with rfl | h''
        · exact Or.inl rfl
        · rcases ih h'' with h3 | ⟨t', ht', hc⟩
          · exact Or.inl h3
          · exact Or.inr ⟨t', by simp [ht'], hc⟩

/-! ## Claim theorems -/

/-- C2: `escapeArgument` is idempotent: for every string `s`,
`escapeArgument (escapeArgument s) = escapeArgument s`, including strings
that are already partially escaped and strings containing arbitrary runs
of backslashes. -/
theorem escapeArgument_idempotent (s : List Char) :
    escapeArgument (escapeArgument s) = escapeArgument s := by
  induction s using escapeArgument.induct with
  | case1 => rfl
  | case2 => rfl
  | case3 d rest2 h ih =>
    rw [esc_bs_dang d rest2 h, esc_bs_dang d _ h, ih]
  | case4 rest2 h ih =>
    rw [esc_bs_bs, esc_bs_bs, ih]
  | case5 d rest2 h1 h2 ih =>
    have h1' : escDangerous d = false := by simpa using h1
    rw [esc_bs_other d rest2 h1' h2, esc_bs_bs, ih]
  | case6 d rest2 h2 h ih =>
    rw [esc_dang d rest2 h2 h, esc_bs_dang d _ h, ih]
  | case7 d rest2 h2 h ih =>
    have h' : escDangerous d = false := by simpa using h
    rw [esc_safe d rest2 h2 h', esc_safe d _ h2 h', ih]

/-- C3: for every string `s`, the output of `escapeArgument s` with all
leading-backslash escape sequences stripped once contains no dangerous
character as judged by `containsDangerousChars`: no dangerous character
survives unescaped in the output. -/
theorem escapeArgument_strips_safe (s : List Char) :
    containsDangerousChars (stripEscapes (escapeArgument s)) = false := by
  induction s using escapeArgument.induct with
  | case1 => rfl
  | case2 => rfl
  | case3 d rest2 h ih =>
    rw [esc_bs_dang d rest2 h, strip_bs_cons]
    exact ih
  | case4 rest2 h ih =>
    rw [esc_bs_bs, strip_bs_cons]
    exact ih
  | case5 d rest2 h1 h2 ih =>
    have h1' : escDangerous d = false := by simpa using h1
    rw [esc_bs_other d rest2 h1' h2, strip_bs_cons]
    exact ih
  | case6 d rest2 h2 h ih =>
    rw [esc_dang d rest2 h2 h, strip_bs_cons]
    exact ih
  | case7 d rest2 h2 h ih =>
    have h' : escDangerous d = false := by simpa using h
    rw [esc_safe d rest2 h2 h', strip_cons_ne d _ h2]
    simp only [containsDangerousChars, List.any_cons] at ih ⊢
    rw [isDangerous_eq_false h' h2, ih]
    rfl

theorem validateCommand_eq (cmd : List Char) :
    validateCommand cmd =
      (if trim cmd = [] then CmdResult.invalid .emptyCommand
       else if (tokens (trim cmd)).headD [] ∈ allowedCommands then
         (if containsDangerousChars (trim cmd) then
            CmdResult.invalid .unsafeChars
          else CmdResult.valid (joinSpace ((tokens (trim cmd)).headD [] ::
            ((tokens (trim cmd)).tail).map escapeArgument)))
       else CmdResult.invalid (.notAllowed ((tokens (trim cmd)).headD []))) :=
  rfl

/-- C1: for every input string whose first whitespace-separated token is
absent from the allowed-command set, or which contains any character of
the dangerous set, `validateCommand` returns an `Invalid` outcome (no
sanitized command). -/
theorem validateCommand_rejects_bad_input (cmd : List Char)
    (h : firstToken cmd ∉ allowedCommands ∨
         containsDangerousChars cmd = true) :
    ∃ e, validateCommand cmd = CmdResult.invalid e := by
  by_cases h0 : trim cmd = []
  · exact ⟨.emptyCommand, by rw [validateCommand_eq, if_pos h0]⟩
  by_cases h1 : (tokens (trim cmd)).headD [] ∈ allowedCommands
  · have h2 : containsDangerousChars cmd = true := by
      rcases h with h | h
      · exact absurd h1 (by simpa only [firstToken] using h)
      · exact h
    have h3 : containsDangerousChars (trim cmd) = true :=
      containsDangerousChars_trim h2
    exact ⟨.unsafeChars,
      by rw [validateCommand_eq, if_neg h0, if_pos h1, if_pos h3]⟩
  · exact ⟨.notAllowed ((tokens (trim cmd)).headD []),
      by rw [validateCommand_eq, if_neg h0, if_neg h1]⟩

/-- Witness for C1: `npm a;` has an allow-listed base command but a
dangerous semicolon, and is rejected. -/
theorem validateCommand_rejects_bad_input_witness :
    containsDangerousChars ['n','p','m',' ','a',';'] = true ∧
    ∃ e, validateCommand ['n','p','m',' ','a',';'] = CmdResult.invalid e :=
  ⟨by decide, validateCommand_rejects_bad_input _ (Or.inr (by decide))⟩

/-- C7: `validateCommand` applies its gates in order with short-circuit:
empty or all-whitespace input is rejected with the empty-command reason;
otherwise a first token absent from the allow-list is rejected with a
reason naming that base command — regardless of dangerous characters —
and only when the base command is allow-listed is the trimmed command
scanned for dangerous characters, rejecting with the unsafe-characters
reason. -/
theorem validateCommand_gate_order (cmd : List Char) :
    (trim cmd = [] → validateCommand cmd = CmdResult.invalid .emptyCommand) ∧
    (trim cmd ≠ [] → firstToken cmd ∉ allowedCommands →
      validateCommand cmd = CmdResult.invalid (.notAllowed (firstToken cmd))) ∧
    (trim cmd ≠ [] → firstToken cmd ∈ allowedCommands →
      containsDangerousChars (trim cmd) = true →
      validateCommand cmd = CmdResult.invalid .unsafeChars) := by
  refine ⟨?_, ?_, ?_⟩
  · intro h0
    rw [validateCommand_eq, if_pos h0]
  · intro h0 h1
    simp only [firstToken] at h1 ⊢
    rw [validateCommand_eq, if_neg h0, if_neg h1]
  · intro h0 h1 h2
    simp only [firstToken] at h1
    rw [validateCommand_eq, if_neg h0, if_pos h1, if_pos h2]

/-- Witness for C7: `rm a;` is both non-allow-listed and contains a
dangerous character, and the allow-list reason wins. -/
theorem validateCommand_gate_order_witness :
    containsDangerousChars (trim ['r','m',' ','a',';']) = true ∧
    validateCommand ['r','m',' ','a',';'] =
      CmdResult.invalid (.notAllowed ['r','m']) :=
  ⟨by decide,
   ((validateCommand_gate_order ['r','m',' ','a',';']).2.1
      (by decide) (by decide)).trans (by decide)⟩

/-- C8: for every input passing both gates, the sanitized command is the
base command followed by each argument token passed through
`escapeArgument`, rejoined with single spaces (whitespace runs collapse
to single spaces). -/
theorem validateCommand_sanitized (cmd : List Char)
    (h0 : trim cmd ≠ []) (h1 : firstToken cmd ∈ allowedCommands)
    (h2 : containsDangerousChars (trim cmd) = false) :
    validateCommand cmd = CmdResult.valid (joinSpace (firstToken cmd ::
      ((tokens (trim cmd)).tail).map escapeArgument)) := by
  simp only [firstToken] at h1 ⊢
  rw [validateCommand_eq, if_neg h0, if_pos h1, if_neg (by simp [h2])]

/-- Witness for C8: extra whitespace in `  npm   install   lodash  ` is
normalized to single spaces. -/
theorem validateCommand_sanitized_witness :
    validateCommand
        [' ',' ','n','p','m',' ',' ',' ','i','n','s','t','a','l','l',
         ' ',' ',' ','l','o','d','a','s','h',' ',' '] =
      CmdResult.valid
        ['n','p','m',' ','i','n','s','t','a','l','l',' ','l','o','d','a','s','h'] :=
  (validateCommand_sanitized _ (by decide) (by decide) (by decide)).trans
    (by decide)

/-- C10 (implicit): for every command accepted by `validateCommand`, no
token contains a dangerous character, `escapeArgument` is the identity on
every token, the sanitized command is the trimmed input with whitespace
runs collapsed to single spaces (the space-join of its tokens), and the
sanitized command contains no dangerous character. -/
theorem validateCommand_accepted_is_identity (cmd san : List Char)
    (h : validateCommand cmd = CmdResult.valid san) :
    (∀ t ∈ tokens (trim cmd), escapeArgument t = t) ∧
    san = joinSpace (tokens (trim cmd)) ∧
    containsDangerousChars san = false := by
  by_cases h0 : trim cmd = []
  · rw [validateCommand_eq, if_pos h0] at h
    exact CmdResult.noConfusion h
  by_cases h1 : (tokens (trim cmd)).headD [] ∈ allowedCommands
  swap
  · rw [validateCommand_eq, if_neg h0, if_neg h1] at h
    exact CmdResult.noConfusion h
  by_cases h2 : containsDangerousChars (trim cmd) = true
  · rw [validateCommand_eq, if_neg h0, if_pos h1, if_pos h2] at h
    exact CmdResult.noConfusion h
  have h2' : containsDangerousChars (trim cmd) = false := by
    simpa using h2
  rw [validateCommand_eq, if_neg h0, if_pos h1, if_neg (by simp [h2'])] at h
  have hsan : joinSpace ((tokens (trim cmd)).headD [] ::
      ((tokens (trim cmd)).tail).map escapeArgument) = san :=
    CmdResult.valid.inj h
  have hsafe : ∀ c ∈ trim cmd, isDangerous c = false := by
    intro c hc
    have := List.any_eq_false.mp h2' c hc
    simpa using this
  have htok : ∀ t ∈ tokens (trim cmd), escapeArgument t = t := by
    intro t ht
    exact escapeArgument_id (fun c hc => hsafe c (mem_tokens t ht c hc))
  have hne : tokens (trim cmd) ≠ [] :=
    tokens_ne_nil (exists_not_ws_of_trim_ne_nil h0)
  obtain ⟨p, ps, hps⟩ := List.exists_cons_of_ne_nil hne
  have hsan2 : san = joinSpace (tokens (trim cmd)) := by
    rw [← hsan, hps]
    simp only [List.headD_cons, List.tail_cons]
    rw [map_self_of_id (fun t ht => htok t (hps ▸ List.mem_cons_of_mem _ ht))]
  refine ⟨htok, hsan2, ?_⟩
  rw [hsan2]
  apply List.any_eq_false.mpr
  intro c hc
  rcases mem_joinSpace hc with rfl | ⟨t, ht, hct⟩
  · decide
  · simp [hsafe c (mem_tokens t ht c hct)]

/-- Witness for C10: the accepted command `npm a` round-trips
unchanged. -/
theorem validateCommand_accepted_is_identity_witness :
    (∀ t ∈ tokens (trim ['n','p','m',' ','a']), escapeArgument t = t) ∧
    ['n','p','m',' ','a'] = joinSpace (tokens (trim ['n','p','m',' ','a'])) ∧
    containsDangerousChars ['n','p','m',' ','a'] = false :=
  validateCommand_accepted_is_identity ['n','p','m',' ','a']
    ['n','p','m',' ','a'] (by decide)

theorem validatePath_eq (p : List Char) :
    validatePath p =
      (if trim p = [] then VResult.invalid .emptyPath
       else if containsDotDot (trim p) then VResult.invalid .pathTraversal
       else VResult.valid (trim p)) :=
  rfl

/-- C4: `validatePath` rejects every string whose trimmed value contains
the substring of two consecutive dots anywhere, rejects empty or
whitespace-only input, and accepts every other non-empty string,
returning the trimmed value unchanged (no path normalization). -/
theorem validatePath_correct (p : List Char) :
    (containsDotDot (trim p) = true →
       validatePath p = VResult.invalid .pathTraversal) ∧
    (trim p = [] → validatePath p = VResult.invalid .emptyPath) ∧
    (trim p ≠ [] → containsDotDot (trim p) = false →
       validatePath p = VResult.valid (trim p)) := by
  refine ⟨?_, ?_, ?_⟩
  · intro hdd
    have h0 : trim p ≠ [] := by
      intro hnil
      rw [hnil] at hdd
      exact absurd hdd (by decide)
    rw [validatePath_eq, if_neg h0, if_pos hdd]
  · intro h0
    rw [validatePath_eq, if_pos h0]
  · intro h0 hdd
    rw [validatePath_eq, if_neg h0, if_neg (by simp [hdd])]

/-- Witness for C4: a Windows-style traversal is rejected, whitespace is
rejected, and a plain path is accepted trimmed but otherwise unchanged. -/
theorem validatePath_correct_witness :
    validatePath ['C',':','\\','a','\\','.','.','\\','b'] =
      VResult.invalid .pathTraversal ∧
    validatePath [' ',' '] = VResult.invalid .emptyPath ∧
    validatePath [' ','/','E','t','c','/','x',' '] =
      VResult.valid ['/','E','t','c','/','x'] :=
  ⟨(validatePath_correct _).1 (by decide),
   (validatePath_correct _).2.1 (by decide),
   ((validatePath_correct _).2.2 (by decide) (by decide)).trans (by decide)⟩

theorem validatePackageName_eq (n : List Char) :
    validatePackageName n =
      (if trim n = [] then VResult.invalid .emptyName
       else if npmMatch (trim n) then VResult.valid (trim n)
       else if pipMatch (trim n) then VResult.valid (trim n)
       else VResult.invalid .badPackageFormat) :=
  rfl

/-- C5: `validatePackageName` accepts exactly those strings whose trimmed
value matches the npm grammar or the pip grammar, returning the trimmed
value with case preserved; every other input is rejected. -/
theorem validatePackageName_correct (n : List Char) :
    ((npmMatch (trim n) = true ∨ pipMatch (trim n) = true) →
       validatePackageName n = VResult.valid (trim n)) ∧
    (npmMatch (trim n) = false → pipMatch (trim n) = false →
       ∀ v, validatePackageName n ≠ VResult.valid v) := by
  refine ⟨?_, ?_⟩
  · intro h
    have h0 : trim n ≠ [] := by
      intro hnil
      rcases h with h | h <;> rw [hnil] at h <;> exact absurd h (by decide)
    rcases h with h | h
    · rw [validatePackageName_eq, if_neg h0, if_pos h]
    · by_cases hn : npmMatch (trim n) = true
      · rw [validatePackageName_eq, if_neg h0, if_pos hn]
      · rw [validatePackageName_eq, if_neg h0, if_neg hn, if_pos h]
  · intro hn hp v
    by_cases h0 : trim n = []
    · rw [validatePackageName_eq, if_pos h0]
      exact fun h => VResult.noConfusion h
    · rw [validatePackageName_eq, if_neg h0, if_neg (by simp [hn]),
        if_neg (by simp [hp])]
      exact fun h => VResult.noConfusion h

/-- Witness for C5: a scoped npm name is accepted trimmed with case
preserved, a pip name keeps its upper case, and a name with a space is
rejected. -/
theorem validatePackageName_correct_witness :
    validatePackageName [' ','@','t','y','p','e','s','/','n','o','d','e',' '] =
      VResult.valid ['@','t','y','p','e','s','/','n','o','d','e'] ∧
    validatePackageName ['D','j','a','n','g','o'] =
      VResult.valid ['D','j','a','n','g','o'] ∧
    ∀ v, validatePackageName ['m','y',' ','p','a','c','k','a','g','e'] ≠
      VResult.valid v :=
  ⟨((validatePackageName_correct _).1 (Or.inl (by decide))).trans (by decide),
   ((validatePackageName_correct _).1 (Or.inr (by decide))).trans (by decide),
   (validatePackageName_correct _).2 (by decide) (by decide)⟩

theorem validatePID_finite_eq (q : ℚ) :
    validatePID (.num (.finite q)) =
      (if q.den = 1 then
         (if q ≤ 0 then VResult.invalid .pidNotPositive
          else VResult.valid (.finite q))
       else VResult.invalid .pidNotInteger) := by
  by_cases hden : q.den = 1 <;> by_cases hpos : q ≤ 0 <;>
    simp [validatePID, jsIsNaN, jsIsFinite, jsIsInteger, jsLeZero, hden, hpos]

/-- C6: `validatePID` accepts exactly the finite positive integers,
returning the input value, and rejects non-numeric input, `NaN`,
non-finite values, non-integers and non-positive values, each with its
distinct reason, checked in the source's order so the most specific
applicable reason is reported. -/
theorem validatePID_correct :
    (∀ v x, validatePID v = VResult.valid x ↔
       (v = JSVal.num x ∧ ∃ q : ℚ, x = JSNumber.finite q ∧ q.den = 1 ∧ 0 < q)) ∧
    (∀ v, (∀ x, v ≠ JSVal.num x) →
       validatePID v = VResult.invalid .pidNotNumeric) ∧
    validatePID (JSVal.num .nan) = VResult.invalid .pidNaN ∧
    validatePID (JSVal.num .posInf) = VResult.invalid .pidNotFinite ∧
    validatePID (JSVal.num .negInf) = VResult.invalid .pidNotFinite ∧
    (∀ q : ℚ, q.den ≠ 1 →
       validatePID (JSVal.num (JSNumber.finite q)) =
         VResult.invalid .pidNotInteger) ∧
    (∀ q : ℚ, q.den = 1 → q ≤ 0 →
       validatePID (JSVal.num (JSNumber.finite q)) =
         VResult.invalid .pidNotPositive) := by
  refine ⟨?_, ?_, rfl, rfl, rfl, ?_, ?_⟩
  · intro v x
    cases v with
    | num y =>
      cases y with
      | nan =>
        constructor
        · intro h; exact VResult.noConfusion h
        · rintro ⟨hx, q, hq, -, -⟩
          rw [← JSVal.num.inj hx] at hq
          exact JSNumber.noConfusion hq
      | posInf =>
        constructor
        · intro h; exact VResult.noConfusion h
        · rintro ⟨hx, q, hq, -, -⟩
          rw [← JSVal.num.inj hx] at hq
          exact JSNumber.noConfusion hq
      | negInf =>
        constructor
        · intro h; exact VResult.noConfusion h
        · rintro ⟨hx, q, hq, -, -⟩
          rw [← JSVal.num.inj hx] at hq
          exact JSNumber.noConfusion hq
      | finite q =>
        rw [validatePID_finite_eq]
        constructor
        · intro h
          by_cases hden : q.den = 1
          · rw [if_pos hden] at h
            by_cases hpos : q ≤ 0
            · rw [if_pos hpos] at h
              exact VResult.noConfusion h
            · rw [if_neg hpos] at h
              refine ⟨?_, q, ?_, hden, not_le.mp hpos⟩
              · rw [VResult.valid.inj h]
              · rw [← VResult.valid.inj h]
          · rw [if_neg hden] at h
            exact VResult.noConfusion h
        · rintro ⟨hx, q', hq', hden, hpos⟩
          have hxq : x = JSNumber.finite q := (JSVal.num.inj hx).symm
          rw [hxq] at hq'
          have hqq : q = q' := JSNumber.finite.inj hq'
          subst hqq
          rw [if_pos hden, if_neg (not_le.mpr hpos), hxq]
    | str s =>
      constructor
      · intro h; exact VResult.noConfusion h
      · rintro ⟨hx, -⟩; exact JSVal.noConfusion hx
    | boolean b =>
      constructor
      · intro h; exact VResult.noConfusion h
      · rintro ⟨hx, -⟩; exact JSVal.noConfusion hx
    | nullV =>
      constructor
      · intro h; exact VResult.noConfusion h
      · rintro ⟨hx, -⟩; exact JSVal.noConfusion hx
    | undefinedV =>
      constructor
      · intro h; exact VResult.noConfusion h
      · rintro ⟨hx, -⟩; exact JSVal.noConfusion hx
    | objectV =>
      constructor
      · intro h; exact VResult.noConfusion h
      · rintro ⟨hx, -⟩; exact JSVal.noConfusion hx
  · intro v hv
    cases v with
    | num y => exact absurd rfl (hv y)
    | str s => rfl
    | boolean b => rfl
    | nullV => rfl
    | undefinedV => rfl
    | objectV => rfl
  · intro q hden
    rw [validatePID_finite_eq, if_neg hden]
  · intro q hden hle
    rw [validatePID_finite_eq, if_pos hden, if_pos hle]

/-- Witness for C6: the PID `7` is accepted as itself; a string, the
fraction three halves, zero and `NaN` are rejected with their respective
reasons. -/
theorem validatePID_correct_witness :
    validatePID (JSVal.num (JSNumber.finite 7)) =
      VResult.valid (JSNumber.finite 7) ∧
    validatePID (JSVal.str ['7']) = VResult.invalid .pidNotNumeric ∧
    validatePID (JSVal.num (JSNumber.finite (3 / 2))) =
      VResult.invalid .pidNotInteger ∧
    validatePID (JSVal.num (JSNumber.finite 0)) =
      VResult.invalid .pidNotPositive :=
  ⟨(validatePID_correct.1 _ _).mpr ⟨rfl, 7, rfl, by norm_num, by norm_num⟩,
   validatePID_correct.2.1 _ (fun x h => by cases h),
   validatePID_correct.2.2.2.2.2.1 (3 / 2) (by norm_num),
   validatePID_correct.2.2.2.2.2.2 0 (by norm_num) (by norm_num)⟩

theorem scriptSrcTokens_eq (cfg : CSPConfig) :
    scriptSrcTokens cfg = "'self'".toList :: nonceTokens cfg :=
  rfl

theorem nonce_tok_ne_unsafe_inline (n : List Char) :
    "'nonce-".toList ++ n ++ ['\''] ≠ "'unsafe-inline'".toList := by
  intro h
  rw [show "'nonce-".toList = ['\'','n','o','n','c','e','-'] from rfl,
    show "'unsafe-inline'".toList =
      ['\'','u','n','s','a','f','e','-','i','n','l','i','n','e','\''] from rfl]
    at h
  simp only [List.cons_append, List.nil_append] at h
  injection h with h1 h2
  injection h2 with h3 h4
  exact absurd h3 (by decide)

/-- C9: for every configuration, the `script-src` token list of the
generated content-security-policy never contains the `'unsafe-inline'`
token; when a nonce is supplied, the `'nonce-<value>'` token is appended
to `script-src` alongside `'self'`. -/
theorem generateCSPPolicy_script_src_safe (cfg : CSPConfig) :
    "'unsafe-inline'".toList ∉ scriptSrcTokens cfg ∧
    (∀ n, cfg.nonce = some n →
       scriptSrcTokens cfg =
         ["'self'".toList, "'nonce-".toList ++ n ++ ['\'']]) := by
  rw [scriptSrcTokens_eq]
  constructor
  · intro hmem
    rcases List.mem_cons.mp hmem with h | h
    · exact absurd h (by decide)
    · cases hcn : cfg.nonce with
      | none => rw [nonceTokens, hcn] at h; cases h
      | some n =>
        rw [nonceTokens, hcn] at h
        rcases List.mem_singleton.mp h with h'
        exact nonce_tok_ne_unsafe_inline n h'.symm
  · intro n hn
    rw [nonceTokens, hn]

/-- Witness for C9: a development configuration with nonce `abc`. -/
theorem generateCSPPolicy_script_src_safe_witness :
    "'unsafe-inline'".toList ∉
      scriptSrcTokens ⟨true, some ("http://localhost:5173".toList),
        some ['a','b','c']⟩ ∧
    scriptSrcTokens ⟨true, some ("http://localhost:5173".toList),
        some ['a','b','c']⟩ =
      ["'self'".toList, "'nonce-".toList ++ ['a','b','c'] ++ ['\'']] :=
  ⟨(generateCSPPolicy_script_src_safe _).1,
   (generateCSPPolicy_script_src_safe _).2 ['a','b','c'] rfl⟩

end DevJanitor
